import Mathlib

/-!
Verification of the message_app chat client (Firestore-backed).

The data model and operations below are a shallow embedding of the
TypeScript client code:
  * `handleSendMessage`, `handleTypingStart`, `handleTypingStop`
    (src/src/app/components/ChatApp.tsx),
  * the messages / typing `onSnapshot` subscriptions and
    `markMessagesAsRead` (src/src/app/components/ChatContainer.tsx),
  * `handleEdit`, `handleDelete`, `handleReaction`, `handlePin`,
    `handleUnpin` (the Messages component).

Firestore's document updates are modelled as pure state transformers over
a list of message records: `updateDoc` on a document id maps the record
with that id, `deleteDoc` filters it out, `addDoc` appends, `setDoc` on
the typing collection upserts at its key, `arrayUnion` appends when the
element is absent, `arrayRemove` removes every equal element.  The
`serverTimestamp()` sentinel is modelled as an integer parameter carrying
the server clock (milliseconds).  JavaScript's `String.prototype.trim`
and `String.prototype.startsWith` are modelled over the character list of
a Lean `String`.
-/

namespace MessageApp

/-- JavaScript `s.trim()`: drop whitespace from both ends. -/
def jsTrim (s : String) : String :=
  ⟨((s.data.dropWhile Char.isWhitespace).reverse.dropWhile Char.isWhitespace).reverse⟩

/-- JavaScript `s.startsWith(p)`. -/
def jsStartsWith (s p : String) : Bool :=
  List.isPrefixOf p.data s.data

/-- Firestore `arrayUnion(x)` on an array field: append `x` only if absent. -/
def arrayUnion (xs : List String) (x : String) : List String :=
  if xs.contains x then xs else xs ++ [x]

/-- Firestore `arrayRemove(x)` on an array field: remove every occurrence. -/
def arrayRemove (xs : List String) (x : String) : List String :=
  xs.filter (fun y => y != x)

/-- `status?: "sent" | "delivered" | "read"` (ChatContainer.tsx, Message interface). -/
inductive MessageStatus where
  | sent
  | delivered
  | read
deriving Repr, DecidableEq

/-- `FileData` (ChatContainer.tsx): an attachment record. -/
structure FileData where
  name : String
  type : String
  size : Nat
  url : String
deriving Repr, DecidableEq

/-- `AudioData` (ChatContainer.tsx): a voice-note record. -/
structure AudioData where
  name : String
  type : String
  size : Nat
  url : String
  duration : Nat
deriving Repr, DecidableEq

/-- The `Message` interface (ChatContainer.tsx) together with the pin
fields written by `handlePin` / `handleUnpin`.  Optional fields that the
client reads with a falsy default (`edited?`, `reactions?`, `readBy?`,
`hasFiles?`, `files?`, `hasAudio?`, `audio?`, `pinned`) are modelled with
that default standing for the absent field. -/
structure Message where
  id : String
  message : String
  userEmail : String
  userName : String
  userPicture : String
  date : Int
  edited : Bool
  reactions : List String
  status : Option MessageStatus
  readBy : List String
  hasFiles : Bool
  files : List FileData
  hasAudio : Bool
  audio : Option AudioData
  pinned : Bool
  pinnedAt : Option Int
  pinnedBy : Option String
deriving Repr, DecidableEq

/-- A document of the `typing` collection (keyed by the principal's email;
`timestamp` is `none` while the `serverTimestamp()` write is pending,
mirroring the `typingUser.timestamp?.toDate()` guard in the filter). -/
structure TypingDoc where
  userEmail : String
  userName : String
  timestamp : Option Int
deriving Repr, DecidableEq

/-- The error taxonomy of spec §7 (`InvalidContent`, `NotFound`,
`NotAuthor`); the claims reference these labels. -/
inductive ChatError where
  | InvalidContent
  | NotFound
  | NotAuthor
deriving Repr, DecidableEq

/-- Fetch the message document with a given id (first match). -/
def getById (st : List Message) (mid : String) : Option Message :=
  st.find? (fun m => m.id == mid)

/-- The identity fields the client takes from the signed-in Firebase user. -/
structure UserInfo where
  email : String
  displayName : String
  photoURL : String
deriving Repr, DecidableEq

/-- `handleSendMessage` (ChatApp.tsx:396-495).  The guard
`!input.trim() && selectedFiles.length === 0 && !audioBlob` returns
without creating a document; the spec names this rejection
`InvalidContent` (spec §4.1, §7), a label the client code leaves
implicit.  On the accepted path `addDoc` appends a document with
`message: input.trim()`, `date: serverTimestamp()` (the server clock
`now`), `status: "sent"`, `readBy: [user.email]`, and the
file/audio payload flags. -/
def handleSendMessage (st : List Message) (newId : String) (now : Int)
    (u : UserInfo) (input : String) (selectedFiles : List FileData)
    (audioBlob : Option AudioData) : Option ChatError × List Message :=
  if jsTrim input == "" && selectedFiles.isEmpty && audioBlob.isNone then
    (some ChatError.InvalidContent, st)
  else
    (none, st ++ [{ id := newId
                    message := jsTrim input
                    userEmail := u.email
                    userName := u.displayName
                    userPicture := u.photoURL
                    date := now
                    edited := false
                    reactions := []
                    status := some MessageStatus.sent
                    readBy := [u.email]
                    hasFiles := !selectedFiles.isEmpty
                    files := selectedFiles
                    hasAudio := audioBlob.isSome
                    audio := audioBlob
                    pinned := false
                    pinnedAt := none
                    pinnedBy := none }])

/-- `handleEdit` (Messages component): `if (!editText.trim()) return;`
then `updateDoc({ message: editText.trim(), edited: true })` on the
message document. -/
def handleEdit (st : List Message) (mid : String) (editText : String) :
    List Message :=
  if jsTrim editText == "" then st
  else
    st.map (fun m =>
      if m.id == mid then
        { m with message := jsTrim editText, edited := true }
      else m)

/-- `handleDelete` (Messages component): `deleteDoc` on the message
document. -/
def handleDelete (st : List Message) (mid : String) : List Message :=
  st.filter (fun m => m.id != mid)

/-- Modelled from the spec: the Message Store contract
`edit(messageId, byId, newBody)` of spec §4.1 with its `NotFound` and
`NotAuthor` failures.  The broker-side checks are not present in src/
(the client only evidences the author-only rule by rendering the edit
button under `isAuthor`, Messages component); the successful path is the
source `handleEdit` above. -/
def editMessage (st : List Message) (mid byId newBody : String) :
    Option ChatError × List Message :=
  match getById st mid with
  | none => (some ChatError.NotFound, st)
  | some m =>
      if byId == m.userEmail then (none, handleEdit st mid newBody)
      else (some ChatError.NotAuthor, st)

/-- Modelled from the spec: the Message Store contract
`delete(messageId, byId)` of spec §4.1 with its `NotFound` and
`NotAuthor` failures (broker-side checks absent from src/, evidenced by
the `isAuthor` render gate); the successful path is the source
`handleDelete` above. -/
def deleteMessage (st : List Message) (mid byId : String) :
    Option ChatError × List Message :=
  match getById st mid with
  | none => (some ChatError.NotFound, st)
  | some m =>
      if byId == m.userEmail then (none, handleDelete st mid)
      else (some ChatError.NotAuthor, st)

/-- `handleReaction(emoji)` (Messages component) on one message record:
`userReaction` is `` `${emoji}:${currentUser.email}` ``; the existing
reaction is looked up with `r.startsWith(userReaction)` and removed with
`arrayRemove`, otherwise `userReaction` is added with `arrayUnion`. -/
def handleReaction (m : Message) (email emoji : String) : Message :=
  match m.reactions.find? (fun r => jsStartsWith r (emoji ++ ":" ++ email)) with
  | some existingReaction =>
      { m with reactions := arrayRemove m.reactions existingReaction }
  | none =>
      { m with reactions := arrayUnion m.reactions (emoji ++ ":" ++ email) }

/-- `handleReaction` as a store update (`updateDoc` on the message id). -/
def reactStore (st : List Message) (mid email emoji : String) :
    List Message :=
  st.map (fun m => if m.id == mid then handleReaction m email emoji else m)

/-- One message's share of `markMessagesAsRead` (ChatContainer.tsx:407-430):
messages by another author not yet containing the reader in `readBy` get
`readBy: arrayUnion(user.email)` and `status: "read"`. -/
def markMessageAsRead (u : String) (m : Message) : Message :=
  if m.userEmail != u && !(m.readBy.contains u) then
    { m with readBy := arrayUnion m.readBy u, status := some MessageStatus.read }
  else m

/-- `markMessagesAsRead` over the whole snapshot. -/
def markMessagesAsRead (u : String) (st : List Message) : List Message :=
  st.map (markMessageAsRead u)

/-- `handlePin` (Messages component): `updateDoc({ pinned: true,
pinnedAt: new Date(), pinnedBy: currentUser.email })`. -/
def handlePin (st : List Message) (mid byEmail : String) (now : Int) :
    List Message :=
  st.map (fun m =>
    if m.id == mid then
      { m with pinned := true, pinnedAt := some now, pinnedBy := some byEmail }
    else m)

/-- `handleUnpin` (Messages component): `updateDoc({ pinned: false,
pinnedAt: null, pinnedBy: null })`. -/
def handleUnpin (st : List Message) (mid : String) : List Message :=
  st.map (fun m =>
    if m.id == mid then
      { m with pinned := false, pinnedAt := none, pinnedBy := none }
    else m)

/-- The typing `onSnapshot` consumer (ChatContainer.tsx:370-400): the
query excludes the reader's own signal (`where("userEmail", "!=",
user.email)`) and the client filters out documents without a resolved
timestamp or older than 3 seconds (`now - typingTime < 3000`
milliseconds). -/
def typingFilter (now : Int) (selfEmail : String)
    (docs : List TypingDoc) : List TypingDoc :=
  (docs.filter (fun d => d.userEmail != selfEmail)).filter (fun d =>
    match d.timestamp with
    | none => false
    | some t => now - t < 3000)

/-- `handleTypingStart` (ChatApp.tsx:234-253): `setDoc` on
`typing/{user.email}` — an upsert keyed by the principal's email with a
fresh `serverTimestamp()`. -/
def handleTypingStart (store : List (String × TypingDoc))
    (email userName : String) (now : Int) : List (String × TypingDoc) :=
  if store.any (fun kv => kv.1 == email) then
    store.map (fun kv =>
      if kv.1 == email then
        (email, { userEmail := email, userName := userName, timestamp := some now })
      else kv)
  else
    store ++ [(email, { userEmail := email, userName := userName, timestamp := some now })]

/-- `handleTypingStop` (ChatApp.tsx:115-124): `deleteDoc` on
`typing/{user.email}`. -/
def handleTypingStop (store : List (String × TypingDoc))
    (email : String) : List (String × TypingDoc) :=
  store.filter (fun kv => kv.1 != email)

/-- The mutations the client can issue against the `messages`
collection. -/
inductive ChatOp where
  | send (newId : String) (now : Int) (u : UserInfo) (input : String)
      (files : List FileData) (audio : Option AudioData)
  | edit (mid : String) (editText : String)
  | delete (mid : String)
  | react (mid email emoji : String)
  | markRead (u : String)
  | pin (mid byEmail : String) (now : Int)
  | unpin (mid : String)

/-- Apply one client mutation to the `messages` collection. -/
def applyOp (st : List Message) : ChatOp → List Message
  | ChatOp.send newId now u input files audio =>
      (handleSendMessage st newId now u input files audio).2
  | ChatOp.edit mid editText => handleEdit st mid editText
  | ChatOp.delete mid => handleDelete st mid
  | ChatOp.react mid email emoji => reactStore st mid email emoji
  | ChatOp.markRead u => markMessagesAsRead u st
  | ChatOp.pin mid byEmail now => handlePin st mid byEmail now
  | ChatOp.unpin mid => handleUnpin st mid

/-- Apply a sequence of client mutations. -/
def applyOps (st : List Message) : List ChatOp → List Message
  | [] => st
  | op :: ops => applyOps (applyOp st op) ops

/-- The message states reachable from an empty collection through client
mutations. -/
inductive Reachable : List Message → Prop where
  | nil : Reachable []
  | step {st : List Message} (op : ChatOp) : Reachable st → Reachable (applyOp st op)

/-- Store invariant behind the read-status machine: whenever `readBy`
holds a principal other than the author, `status` is `read`. -/
def ReadInv (m : Message) : Prop :=
  (∃ u ∈ m.readBy, u ≠ m.userEmail) → m.status = some MessageStatus.read

/-- Firestore never re-issues a document id; a `send` in a run avoids a
given existing id. -/
def avoidsId (i : String) : ChatOp → Prop
  | ChatOp.send newId _ _ _ _ _ => newId ≠ i
  | _ => True

/-- Every message with a given id has status `read`. -/
def ReadAt (i : String) (st : List Message) : Prop :=
  ∀ m ∈ st, m.id = i → m.status = some MessageStatus.read

/-- Sample author identity used by the concrete witnesses. -/
def aliceInfo : UserInfo :=
  { email := "alice@x", displayName := "Alice", photoURL := "pic" }

/-- Sample message document used by the concrete witnesses. -/
def msgA : Message :=
  { id := "m1", message := "hello", userEmail := "alice@x", userName := "Alice",
    userPicture := "pic", date := 10, edited := false, reactions := [],
    status := some MessageStatus.sent, readBy := ["alice@x"], hasFiles := false,
    files := [], hasAudio := false, audio := none, pinned := false,
    pinnedAt := none, pinnedBy := none }

/-- Sample message holding a reaction by the user `a@bc`; the user `a@b`
has not reacted to it. -/
def prefixReactMsg : Message :=
  { msgA with
    userEmail := "carol@x"
    readBy := ["carol@x"]
    reactions := ["👍:a@bc"] }

/-- A mutation of the `typing` collection issued by some client. -/
inductive TypingOp where
  | start (email userName : String) (now : Int)
  | stop (email : String)

/-- Apply one typing mutation. -/
def applyTypingOp (store : List (String × TypingDoc)) :
    TypingOp → List (String × TypingDoc)
  | TypingOp.start e n t => handleTypingStart store e n t
  | TypingOp.stop e => handleTypingStop store e

/-- Run a sequence of typing mutations from the empty collection. -/
def runTyping (ops : List TypingOp) : List (String × TypingDoc) :=
  ops.foldl applyTypingOp []

/-- Number of documents stored under a given key. -/
def countKey (store : List (String × TypingDoc)) (e : String) : Nat :=
  (store.filter (fun kv => kv.1 == e)).length

/-- Concrete run for the read-status witness: Alice sends "hi". -/
def st0 : List Message :=
  applyOp [] (ChatOp.send "m1" 5 aliceInfo "hi" [] none)

/-- The message created by the send of `st0`. -/
def msg0 : Message :=
  { id := "m1", message := "hi", userEmail := "alice@x", userName := "Alice",
    userPicture := "pic", date := 5, edited := false, reactions := [],
    status := some MessageStatus.sent, readBy := ["alice@x"], hasFiles := false,
    files := [], hasAudio := false, audio := none, pinned := false,
    pinnedAt := none, pinnedBy := none }

/-- `msg0` after Bob's read sweep and a subsequent reaction by Bob. -/
def msg0Final : Message :=
  { msg0 with
    readBy := ["alice@x", "bob@x"]
    status := some MessageStatus.read
    reactions := ["👍:bob@x"] }

theorem getById_map_ite (st : List Message) (mid : String) (f : Message → Message)
    (hf : ∀ m, (f m).id = m.id) :
    getById (st.map (fun m => if m.id == mid then f m else m)) mid =
      Option.map f (getById st mid) := by
  induction st with
  | nil => rfl
  | cons a st ih =>
      by_cases h : a.id = mid
      · have hba : (a.id == mid) = true := beq_iff_eq.mpr h
        have hfa : ((f a).id == mid) = true := beq_iff_eq.mpr (by rw [hf a]; exact h)
        simp [getById, List.find?, hba, hfa] at ih ⊢
      · have hba : (a.id == mid) = false := beq_eq_false_iff_ne.mpr h
        simp [getById, List.find?, hba] at ih ⊢
        exact ih

/-- Claim C1: for every stored message `m` and every principal other than
`m`'s author, an edit or a delete of `m` requested by that principal
fails with `NotAuthor` and leaves the whole message store — hence `m`
with all of its fields — unchanged. -/
theorem nonAuthor_edit_delete_rejected (st : List Message)
    (mid byId newBody : String) (m : Message)
    (hm : getById st mid = some m) (hne : byId ≠ m.userEmail) :
    editMessage st mid byId newBody = (some ChatError.NotAuthor, st) ∧
    deleteMessage st mid byId = (some ChatError.NotAuthor, st) := by
  have hb : (byId == m.userEmail) = false := beq_eq_false_iff_ne.mpr hne
  constructor <;> simp [editMessage, deleteMessage, hm, hb]

theorem nonAuthor_edit_delete_rejected_witness :
    getById [msgA] "m1" = some msgA ∧ "bob@x" ≠ msgA.userEmail ∧
    (editMessage [msgA] "m1" "bob@x" "hey" = (some ChatError.NotAuthor, [msgA]) ∧
     deleteMessage [msgA] "m1" "bob@x" = (some ChatError.NotAuthor, [msgA])) :=
  ⟨by decide, by decide,
   nonAuthor_edit_delete_rejected [msgA] "m1" "bob@x" "hey" msgA (by decide) (by decide)⟩

/-- Claim C3: a send whose body trims to the empty string and that
carries no attachment and no voice note is rejected with
`InvalidContent`, and the message store is left without any new
entity. -/
theorem empty_send_rejected (st : List Message) (newId : String) (now : Int)
    (u : UserInfo) (input : String) (hinput : jsTrim input = "") :
    handleSendMessage st newId now u input [] none =
      (some ChatError.InvalidContent, st) := by
  have hb : (jsTrim input == "") = true := beq_iff_eq.mpr hinput
  simp [handleSendMessage, hb]

theorem empty_send_rejected_witness :
    jsTrim "   " = "" ∧
    handleSendMessage [msgA] "m2" 20 aliceInfo "   " [] none =
      (some ChatError.InvalidContent, [msgA]) :=
  ⟨by decide, empty_send_rejected [msgA] "m2" 20 aliceInfo "   " (by decide)⟩

/-- Claim C8: every accepted send appends exactly one message, carrying
the server-assigned timestamp, `status = sent` and
`readBy = {author}`. -/
theorem send_accepted_fields (st : List Message) (newId : String) (now : Int)
    (u : UserInfo) (input : String) (files : List FileData)
    (audio : Option AudioData)
    (h : ¬(jsTrim input = "" ∧ files = [] ∧ audio = none)) :
    ∃ m, handleSendMessage st newId now u input files audio = (none, st ++ [m]) ∧
      m.date = now ∧ m.status = some MessageStatus.sent ∧
      m.readBy = [u.email] := by
  unfold handleSendMessage
  rw [if_neg]
  · exact ⟨_, rfl, rfl, rfl, rfl⟩
  · simp only [Bool.and_eq_true, beq_iff_eq, List.isEmpty_iff,
      Option.isNone_iff_eq_none]
    exact fun hc => h ⟨hc.1.1, hc.1.2, hc.2⟩

theorem send_accepted_fields_witness :
    ¬(jsTrim "hi" = "" ∧ ([] : List FileData) = [] ∧ (none : Option AudioData) = none) ∧
    (∃ m, handleSendMessage [] "m1" 5 aliceInfo "hi" [] none = (none, [] ++ [m]) ∧
      m.date = 5 ∧ m.status = some MessageStatus.sent ∧
      m.readBy = [aliceInfo.email]) :=
  ⟨by decide,
   send_accepted_fields [] "m1" 5 aliceInfo "hi" [] none (by decide)⟩

/-- Claim C10: a successful edit (author's own message, new body
non-empty after trimming) rewrites only the body and the edited flag;
the id, author, timestamp, status, readers, reactions, pin metadata,
attachments and voice note are untouched. -/
theorem edit_updates_only_body_and_flag (st : List Message)
    (mid editText : String) (m : Message)
    (hm : getById st mid = some m) (hne : jsTrim editText ≠ "") :
    ∃ m', getById (handleEdit st mid editText) mid = some m' ∧
      m'.message = jsTrim editText ∧ m'.edited = true ∧
      m'.id = m.id ∧ m'.userEmail = m.userEmail ∧ m'.userName = m.userName ∧
      m'.userPicture = m.userPicture ∧ m'.date = m.date ∧
      m'.status = m.status ∧ m'.readBy = m.readBy ∧
      m'.reactions = m.reactions ∧ m'.hasFiles = m.hasFiles ∧
      m'.files = m.files ∧ m'.hasAudio = m.hasAudio ∧ m'.audio = m.audio ∧
      m'.pinned = m.pinned ∧ m'.pinnedAt = m.pinnedAt ∧
      m'.pinnedBy = m.pinnedBy := by
  refine ⟨{ m with message := jsTrim editText, edited := true }, ?_,
    rfl, rfl, rfl, rfl, rfl, rfl, rfl, rfl, rfl, rfl, rfl, rfl, rfl, rfl,
    rfl, rfl, rfl⟩
  unfold handleEdit
  rw [if_neg (by simpa using hne),
    getById_map_ite st mid
      (fun m => { m with message := jsTrim editText, edited := true })
      (fun m => rfl), hm]
  rfl

theorem edit_updates_only_body_and_flag_witness :
    getById [msgA] "m1" = some msgA ∧ jsTrim " hey " ≠ "" ∧
    (∃ m', getById (handleEdit [msgA] "m1" " hey ") "m1" = some m' ∧
      m'.message = jsTrim " hey " ∧ m'.edited = true ∧
      m'.id = msgA.id ∧ m'.userEmail = msgA.userEmail ∧
      m'.userName = msgA.userName ∧ m'.userPicture = msgA.userPicture ∧
      m'.date = msgA.date ∧ m'.status = msgA.status ∧
      m'.readBy = msgA.readBy ∧ m'.reactions = msgA.reactions ∧
      m'.hasFiles = msgA.hasFiles ∧ m'.files = msgA.files ∧
      m'.hasAudio = msgA.hasAudio ∧ m'.audio = msgA.audio ∧
      m'.pinned = msgA.pinned ∧ m'.pinnedAt = msgA.pinnedAt ∧
      m'.pinnedBy = msgA.pinnedBy) :=
  ⟨by decide, by decide,
   edit_updates_only_body_and_flag [msgA] "m1" " hey " msgA (by decide) (by decide)⟩

/-- Claim C7: pin and unpin carry no ownership restriction — for any
stored message and any principal whatsoever, `handlePin` records
`pinned = true` with `pinnedBy` that principal and `pinnedAt` the pin
time, and `handleUnpin` clears all three fields. -/
theorem pin_unpin_no_ownership (st : List Message) (mid p : String)
    (now : Int) (m : Message) (hm : getById st mid = some m) :
    getById (handlePin st mid p now) mid =
      some { m with pinned := true, pinnedAt := some now, pinnedBy := some p } ∧
    getById (handleUnpin st mid) mid =
      some { m with pinned := false, pinnedAt := none, pinnedBy := none } := by
  constructor
  · unfold handlePin
    rw [getById_map_ite st mid
      (fun m => { m with pinned := true, pinnedAt := some now, pinnedBy := some p })
      (fun m => rfl), hm]
    rfl
  · unfold handleUnpin
    rw [getById_map_ite st mid
      (fun m => { m with pinned := false, pinnedAt := none, pinnedBy := none })
      (fun m => rfl), hm]
    rfl

theorem pin_unpin_no_ownership_witness :
    getById [msgA] "m1" = some msgA ∧ "bob@x" ≠ msgA.userEmail ∧
    (getById (handlePin [msgA] "m1" "bob@x" 42) "m1" =
       some { msgA with pinned := true, pinnedAt := some 42, pinnedBy := some "bob@x" } ∧
     getById (handleUnpin [msgA] "m1") "m1" =
       some { msgA with pinned := false, pinnedAt := none, pinnedBy := none }) :=
  ⟨by decide, by decide,
   pin_unpin_no_ownership [msgA] "m1" "bob@x" 42 msgA (by decide)⟩

/-- Claim C5: a typing signal whose timestamp is 3.1 seconds (3100 ms)
or more in the past is excluded from the current-typers list, even
though it was never deleted — no document of that principal survives the
filter. -/
theorem stale_typing_excluded (docs : List TypingDoc) (now : Int)
    (selfEmail : String) (d : TypingDoc) (t : Int)
    (hd : d ∈ docs) (ht : d.timestamp = some t) (hlate : t + 3100 ≤ now)
    (hkey : ∀ d' ∈ docs, d'.userEmail = d.userEmail → d' = d) :
    ∀ d' ∈ typingFilter now selfEmail docs, d'.userEmail ≠ d.userEmail := by
  intro d' hd' heq
  unfold typingFilter at hd'
  have h1 := List.of_mem_filter hd'
  have h2 : d' ∈ docs := List.mem_of_mem_filter (List.mem_of_mem_filter hd')
  have hdd : d' = d := hkey d' h2 heq
  subst hdd
  rw [ht] at h1
  simp only [decide_eq_true_eq] at h1
  omega

/-- Claim C4 fails on the code: `handleReaction` looks up the caller's
existing reaction with `startsWith`, so when another user's reaction
string merely extends the caller's prefix (`"👍:a@bc"` vs the caller
`"a@b"`), the first call removes the other user's reaction and the
second call adds the caller's own — the reaction multiset does not
return to its pre-call state.  This computes the code's behaviour at
that failing input. -/
theorem react_toggle_twice_diverges :
    prefixReactMsg.reactions = ["👍:a@bc"] ∧
    (handleReaction (handleReaction prefixReactMsg "a@b" "👍") "a@b" "👍").reactions
      = ["👍:a@b"] ∧
    (handleReaction (handleReaction prefixReactMsg "a@b" "👍") "a@b" "👍").reactions
      ≠ prefixReactMsg.reactions :=
  ⟨by decide, by decide, by decide⟩

theorem mem_arrayUnion_self (xs : List String) (x : String) :
    x ∈ arrayUnion xs x := by
  unfold arrayUnion
  by_cases h : xs.contains x
  · rw [if_pos h]
    exact List.mem_of_elem_eq_true h
  · rw [if_neg h]
    exact List.mem_append_right _ (List.mem_singleton_self x)

theorem markMessageAsRead_idem_pt (u : String) (m : Message) :
    markMessageAsRead u (markMessageAsRead u m) = markMessageAsRead u m := by
  unfold markMessageAsRead
  by_cases hc : (m.userEmail != u && !(m.readBy.contains u)) = true
  · rw [if_pos hc, if_neg]
    simp [mem_arrayUnion_self m.readBy u]
  · rw [if_neg hc, if_neg hc]

/-- Claim C6: `markRead` is idempotent — running the read sweep twice
leaves the store exactly as one run does, a single message is a fixed
point of a second marking, and the marking is a no-op whenever the
reader is already a member of `readBy`. -/
theorem markRead_idempotent (u : String) (st : List Message) (m : Message) :
    markMessagesAsRead u (markMessagesAsRead u st) = markMessagesAsRead u st ∧
    markMessageAsRead u (markMessageAsRead u m) = markMessageAsRead u m ∧
    (u ∈ m.readBy → markMessageAsRead u m = m) := by
  refine ⟨?_, markMessageAsRead_idem_pt u m, ?_⟩
  · unfold markMessagesAsRead
    rw [List.map_map]
    exact List.map_congr_left (fun x _ => markMessageAsRead_idem_pt u x)
  · intro hu
    unfold markMessageAsRead
    rw [if_neg]
    simp [hu]

theorem markRead_idempotent_witness :
    "alice@x" ∈ msgA.readBy ∧
    markMessagesAsRead "alice@x" (markMessagesAsRead "alice@x" [msgA]) =
      markMessagesAsRead "alice@x" [msgA] ∧
    markMessageAsRead "alice@x" (markMessageAsRead "alice@x" msgA) =
      markMessageAsRead "alice@x" msgA ∧
    markMessageAsRead "alice@x" msgA = msgA :=
  ⟨by decide, (markRead_idempotent "alice@x" [msgA] msgA).1,
   (markRead_idempotent "alice@x" [msgA] msgA).2.1,
   (markRead_idempotent "alice@x" [msgA] msgA).2.2 (by decide)⟩

theorem countKey_map_key_pres (f : String × TypingDoc → String × TypingDoc)
    (hf : ∀ kv, (f kv).1 = kv.1) (store : List (String × TypingDoc))
    (e' : String) :
    countKey (store.map f) e' = countKey store e' := by
  unfold countKey
  induction store with
  | nil => rfl
  | cons kv store ih =>
      simp only [List.map_cons, List.filter_cons, hf kv]
      by_cases h2 : (kv.1 == e') = true
      · rw [if_pos h2, if_pos h2]
        simpa using ih
      · rw [if_neg h2, if_neg h2]
        exact ih

theorem countKey_overwrite (store : List (String × TypingDoc))
    (e e' : String) (fresh : TypingDoc) :
    countKey (store.map (fun kv => if kv.1 == e then (e, fresh) else kv)) e' =
      countKey store e' := by
  refine countKey_map_key_pres _ (fun kv => ?_) store e'
  by_cases c : (kv.1 == e) = true
  · rw [if_pos c]
    exact (beq_iff_eq.mp c).symm
  · rw [if_neg c]

theorem countKey_append_one (store : List (String × TypingDoc))
    (e e' : String) (fresh : TypingDoc) :
    countKey (store ++ [(e, fresh)]) e' =
      countKey store e' + (if e == e' then 1 else 0) := by
  simp only [countKey, List.filter_append, List.length_append]
  congr 1
  by_cases h : (e == e') = true
  · simp [List.filter_cons, h]
  · simp [List.filter_cons, h]

theorem countKey_pos_of_any (store : List (String × TypingDoc)) (e : String)
    (h : store.any (fun kv => kv.1 == e) = true) : 1 ≤ countKey store e := by
  rw [List.any_eq_true] at h
  obtain ⟨kv, hkv, hb⟩ := h
  have h1 : kv ∈ store.filter (fun kv => kv.1 == e) := List.mem_filter.mpr ⟨hkv, hb⟩
  have h2 := List.length_pos.mpr (List.ne_nil_of_mem h1)
  unfold countKey
  omega

theorem countKey_zero_of_not_any (store : List (String × TypingDoc)) (e : String)
    (h : store.any (fun kv => kv.1 == e) = false) : countKey store e = 0 := by
  unfold countKey
  rw [List.length_eq_zero, List.filter_eq_nil_iff]
  intro kv hkv
  rw [List.any_eq_false] at h
  simpa using h kv hkv

theorem countKey_applyTypingOp (store : List (String × TypingDoc))
    (op : TypingOp) (e : String) (h : countKey store e ≤ 1) :
    countKey (applyTypingOp store op) e ≤ 1 := by
  cases op with
  | start e' n t =>
      show countKey (handleTypingStart store e' n t) e ≤ 1
      unfold handleTypingStart
      by_cases hp : store.any (fun kv => kv.1 == e') = true
      · rw [if_pos hp, countKey_overwrite]
        exact h
      · rw [if_neg hp, countKey_append_one]
        by_cases he : e' = e
        · subst he
          rw [countKey_zero_of_not_any store e' (Bool.eq_false_iff.mpr hp)]
          simp
        · rw [if_neg (by simpa using he)]
          omega
  | stop e' =>
      show countKey (handleTypingStop store e') e ≤ 1
      unfold handleTypingStop
      refine le_trans ?_ h
      unfold countKey
      exact List.Sublist.length_le
        (List.Sublist.filter _ (List.filter_sublist store))

theorem countKey_runTyping_aux (ops : List TypingOp)
    (store : List (String × TypingDoc)) (e : String)
    (h : countKey store e ≤ 1) :
    countKey (ops.foldl applyTypingOp store) e ≤ 1 := by
  induction ops generalizing store with
  | nil => exact h
  | cons op ops ih =>
      exact ih (applyTypingOp store op) (countKey_applyTypingOp store op e h)

theorem find_after_start_present (store : List (String × TypingDoc))
    (e n : String) (t : Int)
    (hp : store.any (fun kv => kv.1 == e) = true) :
    (store.map (fun kv => if kv.1 == e
        then (e, ({ userEmail := e, userName := n, timestamp := some t } : TypingDoc))
        else kv)).find? (fun kv => kv.1 == e) =
      some (e, { userEmail := e, userName := n, timestamp := some t }) := by
  induction store with
  | nil => simp at hp
  | cons kv store ih =>
      by_cases h : kv.1 = e
      · have hb : (kv.1 == e) = true := beq_iff_eq.mpr h
        simp [List.find?, hb]
      · have hb : (kv.1 == e) = false := beq_eq_false_iff_ne.mpr h
        simp only [List.any_cons, hb, Bool.false_or] at hp
        simp only [List.map_cons, hb, Bool.false_eq_true, if_false, List.find?, hb]
        exact ih hp

theorem find_after_start_absent (store : List (String × TypingDoc))
    (e n : String) (t : Int)
    (hp : store.any (fun kv => kv.1 == e) = false) :
    (store ++ [(e, ({ userEmail := e, userName := n, timestamp := some t } : TypingDoc))]).find?
        (fun kv => kv.1 == e) =
      some (e, { userEmail := e, userName := n, timestamp := some t }) := by
  induction store with
  | nil => simp [List.find?]
  | cons kv store ih =>
      simp only [List.any_cons, Bool.or_eq_false_iff] at hp
      simp only [List.cons_append, List.find?, hp.1]
      exact ih hp.2

/-- Claim C9: in every state reachable by any sequence of typing
mutations there is at most one typing document per principal; a further
`handleTypingStart` is an upsert — it leaves exactly one document under
the principal's key, namely the freshly timestamped one. -/
theorem typing_single_slot (ops : List TypingOp) (e userName : String)
    (t : Int) :
    countKey (runTyping ops) e ≤ 1 ∧
    countKey (handleTypingStart (runTyping ops) e userName t) e = 1 ∧
    (handleTypingStart (runTyping ops) e userName t).find?
        (fun kv => kv.1 == e) =
      some (e, { userEmail := e, userName := userName, timestamp := some t }) := by
  have hinv : countKey (runTyping ops) e ≤ 1 :=
    countKey_runTyping_aux ops [] e (by simp [countKey])
  refine ⟨hinv, ?_, ?_⟩
  · unfold handleTypingStart
    by_cases hp : (runTyping ops).any (fun kv => kv.1 == e) = true
    · rw [if_pos hp, countKey_overwrite]
      have := countKey_pos_of_any (runTyping ops) e hp
      omega
    · rw [if_neg hp, countKey_append_one,
        countKey_zero_of_not_any _ _ (Bool.eq_false_iff.mpr hp)]
      simp
  · unfold handleTypingStart
    by_cases hp : (runTyping ops).any (fun kv => kv.1 == e) = true
    · rw [if_pos hp]
      exact find_after_start_present _ e userName t hp
    · rw [if_neg hp]
      exact find_after_start_absent _ e userName t (Bool.eq_false_iff.mpr hp)

theorem stale_typing_excluded_witness :
    (⟨"bob@x", "Bob", some 1000⟩ : TypingDoc) ∈
        [(⟨"bob@x", "Bob", some 1000⟩ : TypingDoc)] ∧
    (⟨"bob@x", "Bob", some 1000⟩ : TypingDoc).timestamp = some 1000 ∧
    (1000 : Int) + 3100 ≤ 4200 ∧
    (∀ d' ∈ typingFilter 4200 "alice@x" [(⟨"bob@x", "Bob", some 1000⟩ : TypingDoc)],
      d'.userEmail ≠ (⟨"bob@x", "Bob", some 1000⟩ : TypingDoc).userEmail) :=
  ⟨by decide, by decide, by decide,
   stale_typing_excluded [⟨"bob@x", "Bob", some 1000⟩] 4200 "alice@x"
     ⟨"bob@x", "Bob", some 1000⟩ 1000 (by decide) (by decide) (by decide)
     (by decide)⟩

theorem readInv_map (f : Message → Message)
    (hpres : ∀ m, ReadInv m → ReadInv (f m)) (st : List Message)
    (h : ∀ m ∈ st, ReadInv m) : ∀ m' ∈ st.map f, ReadInv m' := by
  intro m' hm'
  obtain ⟨x, hx, rfl⟩ := List.mem_map.mp hm'
  exact hpres x (h x hx)

theorem readInv_ite (mid : String) (f : Message → Message)
    (hf : ∀ m, ReadInv m → ReadInv (f m)) (m : Message) (h : ReadInv m) :
    ReadInv (if m.id == mid then f m else m) := by
  by_cases c : (m.id == mid) = true
  · rw [if_pos c]
    exact hf m h
  · rw [if_neg c]
    exact h

theorem readInv_handleReaction (m : Message) (email emoji : String)
    (h : ReadInv m) : ReadInv (handleReaction m email emoji) := by
  unfold handleReaction
  split
  · exact h
  · exact h

theorem readInv_markMessageAsRead (u : String) (m : Message)
    (h : ReadInv m) : ReadInv (markMessageAsRead u m) := by
  unfold markMessageAsRead
  by_cases c : (m.userEmail != u && !(m.readBy.contains u)) = true
  · rw [if_pos c]
    intro _
    rfl
  · rw [if_neg c]
    exact h

theorem readInv_applyOp (st : List Message) (op : ChatOp)
    (h : ∀ m ∈ st, ReadInv m) : ∀ m' ∈ applyOp st op, ReadInv m' := by
  cases op with
  | send newId now u input files audio =>
      show ∀ m' ∈ (handleSendMessage st newId now u input files audio).2, ReadInv m'
      unfold handleSendMessage
      by_cases c : (jsTrim input == "" && files.isEmpty && audio.isNone) = true
      · rw [if_pos c]
        exact h
      · rw [if_neg c]
        intro m' hm'
        rcases List.mem_append.mp hm' with h1 | h1
        · exact h m' h1
        · rw [List.mem_singleton.mp h1]
          intro hex
          obtain ⟨x, hx, hne⟩ := hex
          exact absurd (List.mem_singleton.mp hx) hne
  | edit mid editText =>
      show ∀ m' ∈ handleEdit st mid editText, ReadInv m'
      unfold handleEdit
      by_cases c : (jsTrim editText == "") = true
      · rw [if_pos c]
        exact h
      · rw [if_neg c]
        exact readInv_map _
          (fun m hm => readInv_ite mid
            (fun x => { x with message := jsTrim editText, edited := true })
            (fun _ hm2 => hm2) m hm) st h
  | delete mid =>
      intro m' hm'
      exact h m' (List.mem_of_mem_filter hm')
  | react mid email emoji =>
      exact readInv_map _
        (fun m hm => readInv_ite mid (fun x => handleReaction x email emoji)
          (fun x hx => readInv_handleReaction x email emoji hx) m hm) st h
  | markRead u =>
      exact readInv_map _ (fun m hm => readInv_markMessageAsRead u m hm) st h
  | pin mid byEmail now =>
      exact readInv_map _
        (fun m hm => readInv_ite mid
          (fun x => { x with pinned := true, pinnedAt := some now, pinnedBy := some byEmail })
          (fun _ hm2 => hm2) m hm) st h
  | unpin mid =>
      exact readInv_map _
        (fun m hm => readInv_ite mid
          (fun x => { x with pinned := false, pinnedAt := none, pinnedBy := none })
          (fun _ hm2 => hm2) m hm) st h

theorem readInv_reachable (st : List Message) (h : Reachable st) :
    ∀ m ∈ st, ReadInv m := by
  induction h with
  | nil => intro m hm; cases hm
  | step op _ ih => exact readInv_applyOp _ op ih

theorem readAt_map (st : List Message) (i : String) (f : Message → Message)
    (hid : ∀ m, (f m).id = m.id)
    (hstat : ∀ m, (f m).status = m.status ∨
      (f m).status = some MessageStatus.read)
    (h : ReadAt i st) : ReadAt i (st.map f) := by
  intro m' hm' hidm
  obtain ⟨x, hx, rfl⟩ := List.mem_map.mp hm'
  rcases hstat x with h1 | h1
  · rw [h1]
    exact h x hx (by rw [← hid x]; exact hidm)
  · exact h1

theorem ite_id_pres (mid : String) (f : Message → Message)
    (hf : ∀ m, (f m).id = m.id) (m : Message) :
    ((if m.id == mid then f m else m)).id = m.id := by
  by_cases c : (m.id == mid) = true
  · rw [if_pos c]
    exact hf m
  · rw [if_neg c]

theorem ite_status_pres (mid : String) (f : Message → Message)
    (hf : ∀ m, (f m).status = m.status ∨
      (f m).status = some MessageStatus.read) (m : Message) :
    ((if m.id == mid then f m else m)).status = m.status ∨
      ((if m.id == mid then f m else m)).status = some MessageStatus.read := by
  by_cases c : (m.id == mid) = true
  · rw [if_pos c]
    exact hf m
  · rw [if_neg c]
    exact Or.inl rfl

theorem handleReaction_id_status (m : Message) (email emoji : String) :
    (handleReaction m email emoji).id = m.id ∧
      (handleReaction m email emoji).status = m.status := by
  unfold handleReaction
  split
  · exact ⟨rfl, rfl⟩
  · exact ⟨rfl, rfl⟩

theorem markMessageAsRead_id_pres (u : String) (m : Message) :
    (markMessageAsRead u m).id = m.id := by
  unfold markMessageAsRead
  by_cases c : (m.userEmail != u && !(m.readBy.contains u)) = true
  · rw [if_pos c]
  · rw [if_neg c]

theorem readAt_applyOp (st : List Message) (i : String) (op : ChatOp)
    (h : ReadAt i st) (hop : avoidsId i op) : ReadAt i (applyOp st op) := by
  cases op with
  | send newId now u input files audio =>
      show ReadAt i (handleSendMessage st newId now u input files audio).2
      unfold handleSendMessage
      by_cases c : (jsTrim input == "" && files.isEmpty && audio.isNone) = true
      · rw [if_pos c]
        exact h
      · rw [if_neg c]
        intro m' hm' hidm
        rcases List.mem_append.mp hm' with h1 | h1
        · exact h m' h1 hidm
        · exfalso
          rw [List.mem_singleton.mp h1] at hidm
          exact hop hidm
  | edit mid editText =>
      show ReadAt i (handleEdit st mid editText)
      unfold handleEdit
      by_cases c : (jsTrim editText == "") = true
      · rw [if_pos c]
        exact h
      · rw [if_neg c]
        exact readAt_map st i _
          (ite_id_pres mid
            (fun x => { x with message := jsTrim editText, edited := true })
            (fun _ => rfl))
          (ite_status_pres mid
            (fun x => { x with message := jsTrim editText, edited := true })
            (fun _ => Or.inl rfl)) h
  | delete mid =>
      intro m' hm' hidm
      exact h m' (List.mem_of_mem_filter hm') hidm
  | react mid email emoji =>
      exact readAt_map st i _
        (ite_id_pres mid (fun x => handleReaction x email emoji)
          (fun x => (handleReaction_id_status x email emoji).1))
        (ite_status_pres mid (fun x => handleReaction x email emoji)
          (fun x => Or.inl (handleReaction_id_status x email emoji).2)) h
  | markRead u =>
      refine readAt_map st i _ (markMessageAsRead_id_pres u) (fun m => ?_) h
      unfold markMessageAsRead
      by_cases c : (m.userEmail != u && !(m.readBy.contains u)) = true
      · rw [if_pos c]
        exact Or.inr rfl
      · rw [if_neg c]
        exact Or.inl rfl
  | pin mid byEmail now =>
      exact readAt_map st i _
        (ite_id_pres mid
          (fun x => { x with pinned := true, pinnedAt := some now, pinnedBy := some byEmail })
          (fun _ => rfl))
        (ite_status_pres mid
          (fun x => { x with pinned := true, pinnedAt := some now, pinnedBy := some byEmail })
          (fun _ => Or.inl rfl)) h
  | unpin mid =>
      exact readAt_map st i _
        (ite_id_pres mid
          (fun x => { x with pinned := false, pinnedAt := none, pinnedBy := none })
          (fun _ => rfl))
        (ite_status_pres mid
          (fun x => { x with pinned := false, pinnedAt := none, pinnedBy := none })
          (fun _ => Or.inl rfl)) h

theorem readAt_applyOps (st : List Message) (i : String) (ops : List ChatOp)
    (h : ReadAt i st) (hops : ∀ op ∈ ops, avoidsId i op) :
    ReadAt i (applyOps st ops) := by
  induction ops generalizing st with
  | nil => exact h
  | cons op ops ih =>
      exact ih (applyOp st op)
        (readAt_applyOp st i op h (hops op (List.mem_cons_self op ops)))
        (fun o ho => hops o (List.mem_cons_of_mem op ho))

theorem readAt_after_markRead (st : List Message) (m : Message) (u : String)
    (hinv : ∀ x ∈ st, ReadInv x) (hm : m ∈ st)
    (huniq : ∀ x ∈ st, x.id = m.id → x = m) (hu : u ≠ m.userEmail) :
    ReadAt m.id (markMessagesAsRead u st) := by
  intro m' hm' hidm
  obtain ⟨x, hx, rfl⟩ := List.mem_map.mp hm'
  have hxid : x.id = m.id := by rw [← markMessageAsRead_id_pres u x]; exact hidm
  have hxm : x = m := huniq x hx hxid
  subst hxm
  unfold markMessageAsRead
  by_cases c : (x.userEmail != u && !(x.readBy.contains u)) = true
  · rw [if_pos c]
  · rw [if_neg c]
    have c' : (x.userEmail != u && !(x.readBy.contains u)) = false :=
      Bool.eq_false_iff.mpr c
    rcases Bool.and_eq_false_iff.mp c' with h1 | h1
    · exfalso
      have hx2 : x.userEmail = u := by simpa using h1
      exact hu hx2.symm
    · have hmem : u ∈ x.readBy :=
        List.mem_of_elem_eq_true (by simpa using h1)
      exact hinv x hx ⟨u, hmem, fun he => hu he⟩

/-- Claim C2: in any reachable store, once a principal other than a
message's author runs the read sweep, that message's status is `read`
and stays `read` across every subsequent sequence of client mutations
(sends using fresh document ids), for as long as a message with that id
exists — no operation ever writes any other status value. -/
theorem status_read_monotone (st : List Message) (hreach : Reachable st)
    (m : Message) (hm : m ∈ st)
    (huniq : ∀ x ∈ st, x.id = m.id → x = m)
    (u : String) (hu : u ≠ m.userEmail)
    (ops : List ChatOp) (hops : ∀ op ∈ ops, avoidsId m.id op)
    (m' : Message) (hm' : m' ∈ applyOps (markMessagesAsRead u st) ops)
    (hid : m'.id = m.id) :
    m'.status = some MessageStatus.read := by
  have hinv := readInv_reachable st hreach
  have h0 : ReadAt m.id (markMessagesAsRead u st) :=
    readAt_after_markRead st m u hinv hm huniq hu
  exact readAt_applyOps _ m.id ops h0 hops m' hm' hid

theorem status_read_monotone_witness :
    msg0 ∈ st0 ∧ "bob@x" ≠ msg0.userEmail ∧
    msg0Final ∈ applyOps (markMessagesAsRead "bob@x" st0)
      [ChatOp.react "m1" "bob@x" "👍"] ∧
    msg0Final.id = msg0.id ∧
    msg0Final.status = some MessageStatus.read :=
  ⟨by decide, by decide, by decide, by decide,
   status_read_monotone st0 (Reachable.step _ Reachable.nil) msg0 (by decide)
     (by decide) "bob@x" (by decide) [ChatOp.react "m1" "bob@x" "👍"]
     (by intro op hop; rw [List.mem_singleton.mp hop]; trivial)
     msg0Final (by decide) (by decide)⟩

end MessageApp
